import Mathlib

/-
  Shallow embedding of src/state-machine.ts (Javascript State Machine Library,
  VERSION "2.3.5", TypeScript port).

  Modelling conventions:
  - State and event names are `String`s, exactly as in the source.
  - A caller-supplied callback is modelled by its behaviour when invoked: it
    either returns a JavaScript value or throws.  The `(name, from, to, args)`
    arguments that `doCallback` passes to every callback cannot influence a
    fixed behaviour, so they are not threaded into `CB`.
  - JavaScript values are modelled by `JVal`, distinguishing exactly the
    values the engine inspects: the boolean `false`, the string `"async"`
    (`StateMachine.ASYNC`), `undefined`, the numeric `Result` codes, and a
    catch-all for every other value.
  - JavaScript objects used as string-keyed dictionaries (`map`, `map[name]`,
    `transitions`, the callback table on the fsm object) are association
    lists with overwrite-on-insert, which matches property assignment.
  - A thrown exception is the `.error ()` side of an `Except Unit`.
  - Every operation returns the machine after the call, the list of observable
    events (which callback keys were invoked, in order, and which error codes
    were reported to `fsm.error`), and the returned value or a throw.
-/

set_option autoImplicit false

namespace StateMachine

/-- The `StateMachine.Result` codes (source lines 18-23). -/
inductive Res where
  | SUCCEEDED
  | NOTRANSITION
  | CANCELLED
  | PENDING
deriving DecidableEq, Repr

/-- Numeric values of the `Result` codes, as published by the source. -/
def Res.code : Res → Nat
  | .SUCCEEDED => 1
  | .NOTRANSITION => 2
  | .CANCELLED => 3
  | .PENDING => 4

/-- The `StateMachine.Error` codes (source lines 25-29). -/
inductive Err where
  | INVALID_TRANSITION
  | PENDING_TRANSITION
  | INVALID_CALLBACK
deriving DecidableEq, Repr

/-- Numeric values of the error codes, as published by the source. -/
def Err.code : Err → Nat
  | .INVALID_TRANSITION => 100
  | .PENDING_TRANSITION => 200
  | .INVALID_CALLBACK => 300

/-- The JavaScript values the engine's control flow distinguishes:
`false`, the async marker string `"async"`, `undefined`, a `Result` code,
and anything else. -/
inductive JVal where
  | vFalse
  | vAsync
  | vUndef
  | vRes (r : Res)
  | vOther
deriving DecidableEq, Repr

/-- Behaviour of a caller-supplied callback when invoked: return a value,
or throw an exception. -/
inductive CB where
  | ret (v : JVal)
  | thr
deriving DecidableEq, Repr

/-- Observable trace events of a dispatch: invocation of the callback stored
under a given key, or a report of an error code to `fsm.error`. -/
inductive TraceEv where
  | hookCall (key : String)
  | report (e : Err)
deriving DecidableEq, Repr

/-- The data captured by the `this.transition` closure built at source lines
164-175: the event name, source and destination states and the caller
arguments of the suspended firing. -/
structure Pending where
  name : String
  src : String
  dst : String
  args : List String
deriving DecidableEq, Repr

/-- The machine object (`fsm`).  `map` is the per-event transition table
`{ event: { from: to } }`, `transitionsTable` is `{ state: [event] }`
(source lines 43-44), `hooks` are the caller-supplied callbacks attached to
the object (source lines 70-73), `errh` is the overridable error handler
(`none` is the default handler of source line 81, which throws; a custom
handler is modelled as a pure function of the reported code), `current` is
the current state and `transition` the pending-transition slot
(`fsm.transition`, `null` when empty). -/
structure FSM where
  map : List (String × List (String × String))
  transitionsTable : List (String × List String)
  hooks : List (String × CB)
  errh : Option (Err → JVal)
  current : String
  transition : Option Pending

/-- Association-list lookup, modelling JavaScript property read (`undefined`
when absent). -/
def lookupS {α : Type} : List (String × α) → String → Option α
  | [], _ => none
  | (k, v) :: rest, q => if k = q then some v else lookupS rest q

/-- Association-list insert/overwrite, modelling JavaScript property
assignment. -/
def insertS {α : Type} : List (String × α) → String → α → List (String × α)
  | [], q, v => [(q, v)]
  | (k, w) :: rest, q, v => if k = q then (q, v) :: rest else (k, w) :: insertS rest q v

/-- `hasOwnProperty` on a modelled dictionary. -/
def hasKey {α : Type} (l : List (String × α)) (q : String) : Bool :=
  (lookupS l q).isSome

/-- Read the callback stored on the machine under key `k` (e.g.
`fsm['onbefore' + name]`). -/
def getHook (fsm : FSM) (k : String) : Option CB :=
  lookupS fsm.hooks k

/-- The result of invoking the error handler `fsm.error` with error code `e`
(source line 81): the default handler throws; a caller-supplied handler
returns its value. -/
def errResult (fsm : FSM) (e : Err) : Except Unit JVal :=
  match fsm.errh with
  | none => .error ()
  | some h => .ok (h e)

/-- Resolve a truthiness chain such as `fsm['onafter' + name] || fsm['on' + name]`:
the first key holding a callback wins. -/
def resolveCB (fsm : FSM) : List String → Option (String × CB)
  | [] => none
  | k :: rest =>
    match getHook fsm k with
    | some cb => some (k, cb)
    | none => resolveCB fsm rest

/-- `doCallback` (source lines 92-101) applied to a resolution chain of hook
keys: if no key holds a callback the call returns `undefined`; otherwise the
callback is invoked, and if it throws the wrapper reports `INVALID_CALLBACK`
through `fsm.error` (whose default behaviour is to re-throw). -/
def callHook (fsm : FSM) (ks : List String) : Except Unit JVal × List TraceEv :=
  match resolveCB fsm ks with
  | none => (.ok .vUndef, [])
  | some (k, .ret v) => (.ok v, [.hookCall k])
  | some (k, .thr) => (errResult fsm .INVALID_CALLBACK, [.hookCall k, .report .INVALID_CALLBACK])

/-- `beforeThisEvent` (source line 109): `fsm['onbefore' + name]`. -/
def beforeThisEvent (fsm : FSM) (name : String) : Except Unit JVal × List TraceEv :=
  callHook fsm ["onbefore" ++ name]

/-- `beforeAnyEvent` (source line 103): `fsm['onbeforeevent']`. -/
def beforeAnyEvent (fsm : FSM) : Except Unit JVal × List TraceEv :=
  callHook fsm ["onbeforeevent"]

/-- `afterThisEvent` (source line 110): `fsm['onafter' + name] || fsm['on' + name]`. -/
def afterThisEvent (fsm : FSM) (name : String) : Except Unit JVal × List TraceEv :=
  callHook fsm ["onafter" ++ name, "on" ++ name]

/-- `afterAnyEvent` (source line 104): `fsm['onafterevent'] || fsm['onevent']`. -/
def afterAnyEvent (fsm : FSM) : Except Unit JVal × List TraceEv :=
  callHook fsm ["onafterevent", "onevent"]

/-- `leaveThisState` (source line 111): `fsm['onleave' + from]`. -/
def leaveThisState (fsm : FSM) (src : String) : Except Unit JVal × List TraceEv :=
  callHook fsm ["onleave" ++ src]

/-- `leaveAnyState` (source line 105): `fsm['onleavestate']`. -/
def leaveAnyState (fsm : FSM) : Except Unit JVal × List TraceEv :=
  callHook fsm ["onleavestate"]

/-- `enterThisState` (source line 112): `fsm['onenter' + to] || fsm['on' + to]`. -/
def enterThisState (fsm : FSM) (dst : String) : Except Unit JVal × List TraceEv :=
  callHook fsm ["onenter" ++ dst, "on" ++ dst]

/-- `enterAnyState` (source line 106): `fsm['onenterstate'] || fsm['onstate']`. -/
def enterAnyState (fsm : FSM) : Except Unit JVal × List TraceEv :=
  callHook fsm ["onenterstate", "onstate"]

/-- `changeState` (source line 107): `fsm['onchangestate']`. -/
def changeState (fsm : FSM) : Except Unit JVal × List TraceEv :=
  callHook fsm ["onchangestate"]

/-- `beforeEvent` (source lines 114-118).  Returns `false` as soon as the
specific or the general hook returns `false`; the `||` short-circuit means the
general hook is not invoked when the specific one returned `false`.  A throw
(default error handler) propagates. -/
def beforeEvent (fsm : FSM) (name : String) : Except Unit JVal × List TraceEv :=
  match beforeThisEvent fsm name with
  | (.error _, t1) => (.error (), t1)
  | (.ok v1, t1) =>
    if v1 = .vFalse then (.ok .vFalse, t1)
    else
      match beforeAnyEvent fsm with
      | (.error _, t2) => (.error (), t1 ++ t2)
      | (.ok v2, t2) =>
        if v2 = .vFalse then (.ok .vFalse, t1 ++ t2)
        else (.ok .vUndef, t1 ++ t2)

/-- `afterEvent` (source lines 120-123): both after chains run in order; the
return values are discarded but a throw stops the sequence. -/
def afterEvent (fsm : FSM) (name : String) : Except Unit Unit × List TraceEv :=
  match afterThisEvent fsm name with
  | (.error _, t1) => (.error (), t1)
  | (.ok _, t1) =>
    match afterAnyEvent fsm with
    | (.error _, t2) => (.error (), t1 ++ t2)
    | (.ok _, t2) => (.ok (), t1 ++ t2)

/-- `leaveState` (source lines 125-132): both the specific and the general
leave hooks are invoked (specific first; a throw in the specific one prevents
the general one, as in JavaScript evaluation order), then `false` wins over
`ASYNC`, which wins over a plain return. -/
def leaveState (fsm : FSM) (src : String) : Except Unit JVal × List TraceEv :=
  match leaveThisState fsm src with
  | (.error _, t1) => (.error (), t1)
  | (.ok v1, t1) =>
    match leaveAnyState fsm with
    | (.error _, t2) => (.error (), t1 ++ t2)
    | (.ok v2, t2) =>
      if v1 = .vFalse ∨ v2 = .vFalse then (.ok .vFalse, t1 ++ t2)
      else if v1 = .vAsync ∨ v2 = .vAsync then (.ok .vAsync, t1 ++ t2)
      else (.ok .vUndef, t1 ++ t2)

/-- `enterState` (source lines 134-137): both enter chains run in order. -/
def enterState (fsm : FSM) (dst : String) : Except Unit Unit × List TraceEv :=
  match enterThisState fsm dst with
  | (.error _, t1) => (.error (), t1)
  | (.ok _, t1) =>
    match enterAnyState fsm with
    | (.error _, t2) => (.error (), t1 ++ t2)
    | (.ok _, t2) => (.ok (), t1 ++ t2)

/-- The body of the `this.transition` closure built at source lines 164-171:
clear the pending slot, commit `current = to`, then run enter, change and
after hooks, returning `SUCCEEDED`.  A throw (default error handler) in any
hook propagates after the state has already been committed. -/
def runTransition (fsm : FSM) (p : Pending) : FSM × List TraceEv × Except Unit JVal :=
  let fsm1 : FSM := { fsm with transition := none, current := p.dst }
  match enterState fsm1 p.dst with
  | (.error _, t1) => (fsm1, t1, .error ())
  | (.ok _, t1) =>
    match changeState fsm1 with
    | (.error _, t2) => (fsm1, t1 ++ t2, .error ())
    | (.ok _, t2) =>
      match afterEvent fsm1 p.name with
      | (.error _, t3) => (fsm1, t1 ++ t2 ++ t3, .error ())
      | (.ok _, t3) => (fsm1, t1 ++ t2 ++ t3, .ok (.vRes .SUCCEEDED))

/-- The generated event callable (`buildEvent`, source lines 141-191), fired
on machine `fsm` for the event `name` it was built for.  If `name` is not a
key of the transition map no callable was generated for it, so the call
throws (calling `undefined`).  Otherwise the callable mirrors the source:
resolve `to` (exact source match, else wildcard, else unchanged), pending
guard, permission check (`this.cannot(name)`, which with an empty pending
slot is exactly the absence of both the `from` key and the wildcard key),
before hooks, no-op shortcut, install the pending closure, leave hooks, and
either cancel, stay pending, or run the transition immediately. -/
def fire (fsm : FSM) (name : String) (args : List String) : FSM × List TraceEv × Except Unit JVal :=
  match lookupS fsm.map name with
  | none => (fsm, [], .error ())
  | some evMap =>
    let src := fsm.current
    let dst := (((lookupS evMap src).or (lookupS evMap "*")).getD src)
    if fsm.transition.isSome then
      (fsm, [.report .PENDING_TRANSITION], errResult fsm .PENDING_TRANSITION)
    else if ¬ (hasKey evMap src || hasKey evMap "*") then
      (fsm, [.report .INVALID_TRANSITION], errResult fsm .INVALID_TRANSITION)
    else
      match beforeEvent fsm name with
      | (.error _, tb) => (fsm, tb, .error ())
      | (.ok bv, tb) =>
        if bv = .vFalse then (fsm, tb, .ok (.vRes .CANCELLED))
        else if src = dst then
          match afterEvent fsm name with
          | (.error _, ta) => (fsm, tb ++ ta, .error ())
          | (.ok _, ta) => (fsm, tb ++ ta, .ok (.vRes .NOTRANSITION))
        else
          let p : Pending := { name := name, src := src, dst := dst, args := args }
          let fsm1 : FSM := { fsm with transition := some p }
          match leaveState fsm1 src with
          | (.error _, tl) => (fsm1, tb ++ tl, .error ())
          | (.ok lv, tl) =>
            if lv = .vFalse then
              ({ fsm1 with transition := none }, tb ++ tl, .ok (.vRes .CANCELLED))
            else if lv = .vAsync then
              (fsm1, tb ++ tl, .ok (.vRes .PENDING))
            else
              match fsm1.transition with
              | some p1 =>
                match runTransition fsm1 p1 with
                | (fsm2, tt, r) => (fsm2, tb ++ tl ++ tt, r)
              | none => (fsm1, tb ++ tl, .ok .vUndef)

/-- Calling `fsm.transition()`: when the pending slot is empty (`null`) the
call throws a `TypeError`; otherwise it runs the stored transition closure
(source lines 164-171). -/
def finalizePending (fsm : FSM) : FSM × List TraceEv × Except Unit JVal :=
  match fsm.transition with
  | none => (fsm, [], .error ())
  | some p => runTransition fsm p

/-- Calling `fsm.transition.cancel()` (source lines 172-175): when the pending
slot is empty the property read on `null` throws; otherwise the slot is
cleared and the after hooks run, the call returning `undefined`. -/
def cancelPending (fsm : FSM) : FSM × List TraceEv × Except Unit JVal :=
  match fsm.transition with
  | none => (fsm, [], .error ())
  | some p =>
    let fsm1 : FSM := { fsm with transition := none }
    match afterEvent fsm1 p.name with
    | (.error _, t) => (fsm1, t, .error ())
    | (.ok _, t) => (fsm1, t, .ok .vUndef)

/-- `fsm.can` (source line 77):
`!this.transition && (map[event].hasOwnProperty(this.current) || map[event].hasOwnProperty(WILDCARD))`.
The `&&` short-circuits, so with a non-empty pending slot the call returns
`false` without reading `map[event]`; with an empty pending slot, reading
`hasOwnProperty` of an undefined `map[event]` throws a `TypeError`. -/
def can (fsm : FSM) (event : String) : Except Unit Bool :=
  if fsm.transition.isSome then .ok false
  else
    match lookupS fsm.map event with
    | none => .error ()
    | some evMap => .ok (hasKey evMap fsm.current || hasKey evMap "*")

/-- `fsm.cannot` (source line 78): the negation of `can`; a throw propagates. -/
def cannot (fsm : FSM) (event : String) : Except Unit Bool :=
  (can fsm event).map (fun b => ! b)

/-- `fsm.transitions` (source line 79): `transitions[this.current]`, which is
`undefined` (`none`) when no event was registered with the current state as an
explicit source. -/
def transitionsOf (fsm : FSM) : Option (List String) :=
  lookupS fsm.transitionsTable fsm.current

/-- An event specification of the configuration (`{ name, from?, to? }`).
`from := none` models an absent `from`; `some l` models a single state or an
array of states (source line 47 normalises a single state to a one-element
array). -/
structure EventSpec where
  name : String
  srcs : Option (List String)
  dst : Option String
deriving DecidableEq, Repr

/-- The loop body of `add` (source lines 49-54): for each source state `f`
of the specification, in order, push the event name onto the reachability
table under `f` and bind the event's map entry at `f` to `e.to || f` (the
no-op destination defaulting to the source itself, which for a wildcard
entry is the literal wildcard symbol). -/
def addFroms (e : EventSpec) :
    List String → List (String × String) × List (String × List String) →
    List (String × String) × List (String × List String)
  | [], acc => acc
  | f :: rest, acc =>
    addFroms e rest
      (insertS acc.1 f (e.dst.getD f),
       insertS acc.2 f (((lookupS acc.2 f).getD []) ++ [e.name]))

/-- The `add` function of `create` (source lines 46-55): an absent `from`
becomes the wildcard list, `map[e.name]` is created if absent, and the loop
over the sources updates the event's map entry and the reachability table. -/
def addEvent (mp : List (String × List (String × String)))
    (tt : List (String × List String)) (e : EventSpec) :
    List (String × List (String × String)) × List (String × List String) :=
  let froms := e.srcs.getD ["*"]
  let entry := (lookupS mp e.name).getD []
  let folded := addFroms e froms (entry, tt)
  (insertS mp e.name folded.1, folded.2)

/-- Running `add` over a list of event specifications in order. -/
def addAll :
    List EventSpec → List (String × List (String × String)) × List (String × List String) →
    List (String × List (String × String)) × List (String × List String)
  | [], acc => acc
  | e :: rest, acc => addAll rest (addEvent acc.1 acc.2 e)

/-- Both tables built from the configuration's event specifications (source
lines 57-63). -/
def buildTables (specs : List EventSpec) :
    List (String × List (String × String)) × List (String × List String) :=
  addAll specs ([], [])

/-- The initial-state descriptor: state name, optional event name (default
`"startup"`, source line 58) and the `defer` flag. -/
structure InitCfg where
  state : String
  event : Option String
  defer : Bool
deriving DecidableEq, Repr

/-- The configuration accepted by `StateMachine.create`: optional initial
descriptor, ordered event specifications, callbacks, and the optional custom
error handler. -/
structure Config where
  initial : Option InitCfg
  events : List EventSpec
  callbacks : List (String × CB)
  errh : Option (Err → JVal)

/-- The full list of event specifications processed by `create`: the
synthesized initial event (`from = "none"`, `to = initial.state`, source
line 59) first, then the configured events in order. -/
def allSpecs (cfg : Config) : List EventSpec :=
  match cfg.initial with
  | some i => { name := i.event.getD "startup", srcs := some ["none"], dst := some i.state } :: cfg.events
  | none => cfg.events

/-- `StateMachine.create` (source lines 36-88): build the tables, attach the
event callables and then the callbacks (so a callback sharing the name of an
event replaces that event's callable, source lines 65-73), set
`current = "none"`, and unless the initial descriptor is absent or deferred,
fire the initial event (which, when shadowed by a same-named callback, just
invokes that raw callback: no `doCallback` wrapper, so a throw propagates and
no error is reported).  Returns the machine together with the trace and
outcome of the construction-time call. -/
def create (cfg : Config) : FSM × List TraceEv × Except Unit JVal :=
  let tables := buildTables (allSpecs cfg)
  let fsm0 : FSM :=
    { map := tables.1, transitionsTable := tables.2, hooks := cfg.callbacks,
      errh := cfg.errh, current := "none", transition := none }
  match cfg.initial with
  | none => (fsm0, [], .ok .vUndef)
  | some i =>
    if i.defer then (fsm0, [], .ok .vUndef)
    else
      let ev := i.event.getD "startup"
      match lookupS cfg.callbacks ev with
      | some (.ret v) => (fsm0, [.hookCall ev], .ok v)
      | some .thr => (fsm0, [.hookCall ev], .error ())
      | none => fire fsm0 ev []

/-- A trace contains no report of the two dispatch-guard error codes
(`INVALID_TRANSITION`, `PENDING_TRANSITION`). -/
def guardFree (t : List TraceEv) : Prop :=
  ∀ e ∈ t, e ≠ TraceEv.report .INVALID_TRANSITION ∧ e ≠ TraceEv.report .PENDING_TRANSITION

/-- All callbacks attached to the machine return normally, and return neither
the boolean `false` nor the async marker: no callback cancels, suspends or
throws. -/
def goodHooks (fsm : FSM) : Prop :=
  ∀ k cb, (k, cb) ∈ fsm.hooks → ∃ v, cb = CB.ret v ∧ v ≠ JVal.vFalse ∧ v ≠ JVal.vAsync

/-- Two machines agree on everything except the mutable `current` state and
pending slot: the tables, the hooks and the error handler. -/
def staticEq (g1 g2 : FSM) : Prop :=
  g1.map = g2.map ∧ g1.transitionsTable = g2.transitionsTable ∧
  g1.hooks = g2.hooks ∧ g1.errh = g2.errh

/-- A machine whose only event is `go : a -> b` and whose `onleavea` hook
throws. -/
def fsmLeaveThrow : FSM :=
  { map := [("go", [("a", "b")])], transitionsTable := [("a", ["go"])],
    hooks := [("onleavea", .thr)],
    errh := none, current := "a", transition := none }

/-- A machine suspended in the middle of an asynchronous `go : a -> b`
transition. -/
def fsmSuspended : FSM :=
  { map := [("go", [("a", "b")])], transitionsTable := [("a", ["go"])],
    hooks := [],
    errh := none, current := "a", transition := some { name := "go", src := "a", dst := "b", args := [] } }

/-- A machine whose `onleavea` hook returns the async marker, with enter and
after hooks attached for observing the completion of `go : a -> b`. -/
def fsmAsync : FSM :=
  { map := [("go", [("a", "b")])], transitionsTable := [("a", ["go"])],
    hooks := [("onleavea", .ret .vAsync), ("onenterb", .ret .vOther), ("onaftergo", .ret .vOther)],
    errh := none, current := "a", transition := none }

/-- A machine with both the specific `onenterb` and the general
`onenterstate` hooks attached, for the event `go : a -> b`. -/
def fsmEnterBoth : FSM :=
  { map := [("go", [("a", "b")])], transitionsTable := [("a", ["go"])],
    hooks := [("onenterb", .ret .vOther), ("onenterstate", .ret .vOther)],
    errh := none, current := "a", transition := none }

/-- A machine for `go : a -> b` whose `onenterstate` and plain `onb` hooks
are attached but whose `onenterb` hook is absent. -/
def fsmEnterPlain : FSM :=
  { map := [("go", [("a", "b")])], transitionsTable := [("a", ["go"])],
    hooks := [("onb", .ret .vOther), ("onenterstate", .ret .vOther)],
    errh := none, current := "a", transition := none }

/-- A machine for `go : a -> b` whose event-specific before hook returns
`false`. -/
def fsmBeforeFalse : FSM :=
  { map := [("go", [("a", "b")])], transitionsTable := [("a", ["go"])],
    hooks := [("onbeforego", .ret .vFalse), ("onleavea", .ret .vOther)],
    errh := none, current := "a", transition := none }

/-- A machine in state `b` whose only event `go` is registered from `a`
only. -/
def fsmNotPermitted : FSM :=
  { map := [("go", [("a", "b")])], transitionsTable := [("a", ["go"])],
    hooks := [],
    errh := none, current := "b", transition := none }

/-- A configuration whose `reset` event omits both `from` and `to`: a
wildcard no-op entry. -/
def cfgWildcardNoop : Config :=
  { initial := some { state := "a", event := none, defer := false },
    events := [ { name := "reset", srcs := none, dst := none } ],
    callbacks := [], errh := none }

/-- A configuration whose events list overwrites the synthesized initial
transition `startup : none -> init` with `startup : none -> other`. -/
def cfgInitOverride : Config :=
  { initial := some { state := "init", event := none, defer := false },
    events := [ { name := "startup", srcs := some ["none"], dst := some "other" } ],
    callbacks := [], errh := none }

/-- A plain traffic-light style configuration with no callbacks. -/
def cfgPlain : Config :=
  { initial := some { state := "green", event := none, defer := false },
    events := [ { name := "go", srcs := some ["green"], dst := some "red" } ],
    callbacks := [], errh := none }

/-- A configuration with a wildcard `reset` event and a duplicated
registration of `go` from state `a`. -/
def cfgWildcardIdx : Config :=
  { initial := some { state := "a", event := none, defer := false },
    events := [ { name := "reset", srcs := none, dst := some "c" },
                { name := "go", srcs := some ["a"], dst := some "b" },
                { name := "go", srcs := some ["a"], dst := some "c" } ],
    callbacks := [], errh := none }

end StateMachine

namespace StateMachine

@[simp] theorem lookupS_insertS_self {α : Type} (l : List (String × α)) (k : String) (v : α) :
    lookupS (insertS l k v) k = some v := by
  induction l with
  | nil => simp [insertS, lookupS]
  | cons hd tl ih =>
    obtain ⟨k0, v0⟩ := hd
    by_cases h : k0 = k <;> simp [insertS, lookupS, h, ih]

theorem lookupS_insertS_ne {α : Type} (l : List (String × α)) (k q : String) (v : α)
    (h : k ≠ q) : lookupS (insertS l k v) q = lookupS l q := by
  induction l with
  | nil => simp [insertS, lookupS, h]
  | cons hd tl ih =>
    obtain ⟨k0, v0⟩ := hd
    by_cases h0 : k0 = k
    · subst h0
      simp [insertS, lookupS, h]
    · simp [insertS, lookupS, h0, ih]

theorem lookupS_mem {α : Type} (l : List (String × α)) (q : String) (v : α)
    (h : lookupS l q = some v) : (q, v) ∈ l := by
  induction l with
  | nil => simp [lookupS] at h
  | cons hd tl ih =>
    obtain ⟨k0, v0⟩ := hd
    by_cases h0 : k0 = q
    · subst h0
      simp [lookupS] at h
      simp [h]
    · simp [lookupS, h0] at h
      exact List.mem_cons_of_mem _ (ih h)

theorem guardFree_append {t1 t2 : List TraceEv} (h1 : guardFree t1) (h2 : guardFree t2) :
    guardFree (t1 ++ t2) := by
  intro e he
  rcases List.mem_append.mp he with h | h
  · exact h1 e h
  · exact h2 e h

theorem callHook_guardFree (fsm : FSM) (ks : List String) : guardFree (callHook fsm ks).2 := by
  unfold callHook
  rcases h : resolveCB fsm ks with _ | ⟨k, cb⟩
  · intro e he
    simp at he
  · cases cb <;> · intro e he
                   simp at he
                   first
                   | (subst he; simp)
                   | (rcases he with he | he <;> subst he <;> simp)

theorem beforeThisEvent_guardFree (fsm : FSM) (name : String) :
    guardFree (beforeThisEvent fsm name).2 := callHook_guardFree _ _

theorem beforeAnyEvent_guardFree (fsm : FSM) : guardFree (beforeAnyEvent fsm).2 :=
  callHook_guardFree _ _

theorem afterThisEvent_guardFree (fsm : FSM) (name : String) :
    guardFree (afterThisEvent fsm name).2 := callHook_guardFree _ _

theorem afterAnyEvent_guardFree (fsm : FSM) : guardFree (afterAnyEvent fsm).2 :=
  callHook_guardFree _ _

theorem leaveThisState_guardFree (fsm : FSM) (src : String) :
    guardFree (leaveThisState fsm src).2 := callHook_guardFree _ _

theorem leaveAnyState_guardFree (fsm : FSM) : guardFree (leaveAnyState fsm).2 :=
  callHook_guardFree _ _

theorem enterThisState_guardFree (fsm : FSM) (dst : String) :
    guardFree (enterThisState fsm dst).2 := callHook_guardFree _ _

theorem enterAnyState_guardFree (fsm : FSM) : guardFree (enterAnyState fsm).2 :=
  callHook_guardFree _ _

theorem changeState_guardFree (fsm : FSM) : guardFree (changeState fsm).2 :=
  callHook_guardFree _ _

theorem beforeEvent_guardFree (fsm : FSM) (name : String) :
    guardFree (beforeEvent fsm name).2 := by
  unfold beforeEvent
  split
  next t1 heq =>
    have g1 := beforeThisEvent_guardFree fsm name
    rw [heq] at g1
    exact g1
  next v1 t1 heq =>
    have g1 := beforeThisEvent_guardFree fsm name
    rw [heq] at g1
    split
    · exact g1
    · split
      next t2 heq2 =>
        have g2 := beforeAnyEvent_guardFree fsm
        rw [heq2] at g2
        exact guardFree_append g1 g2
      next v2 t2 heq2 =>
        have g2 := beforeAnyEvent_guardFree fsm
        rw [heq2] at g2
        split <;> exact guardFree_append g1 g2

theorem afterEvent_guardFree (fsm : FSM) (name : String) :
    guardFree (afterEvent fsm name).2 := by
  unfold afterEvent
  split
  next t1 heq =>
    have g1 := afterThisEvent_guardFree fsm name
    rw [heq] at g1
    exact g1
  next u t1 heq =>
    have g1 := afterThisEvent_guardFree fsm name
    rw [heq] at g1
    split
    all_goals
      rename_i t2 heq2
      have g2 := afterAnyEvent_guardFree fsm
      rw [heq2] at g2
      exact guardFree_append g1 g2

theorem leaveState_guardFree (fsm : FSM) (src : String) :
    guardFree (leaveState fsm src).2 := by
  unfold leaveState
  split
  next t1 heq =>
    have g1 := leaveThisState_guardFree fsm src
    rw [heq] at g1
    exact g1
  next v1 t1 heq =>
    have g1 := leaveThisState_guardFree fsm src
    rw [heq] at g1
    split
    next t2 heq2 =>
      have g2 := leaveAnyState_guardFree fsm
      rw [heq2] at g2
      exact guardFree_append g1 g2
    next v2 t2 heq2 =>
      have g2 := leaveAnyState_guardFree fsm
      rw [heq2] at g2
      split <;> [skip; split] <;> exact guardFree_append g1 g2

theorem enterState_guardFree (fsm : FSM) (dst : String) :
    guardFree (enterState fsm dst).2 := by
  unfold enterState
  split
  next t1 heq =>
    have g1 := enterThisState_guardFree fsm dst
    rw [heq] at g1
    exact g1
  next u t1 heq =>
    have g1 := enterThisState_guardFree fsm dst
    rw [heq] at g1
    split
    all_goals
      rename_i t2 heq2
      have g2 := enterAnyState_guardFree fsm
      rw [heq2] at g2
      exact guardFree_append g1 g2

theorem runTransition_guardFree (fsm : FSM) (p : Pending) :
    guardFree (runTransition fsm p).2.1 := by
  unfold runTransition
  dsimp only
  split
  next t1 heq =>
    have g1 := enterState_guardFree { fsm with transition := none, current := p.dst } p.dst
    rw [heq] at g1
    exact g1
  next u t1 heq =>
    have g1 := enterState_guardFree { fsm with transition := none, current := p.dst } p.dst
    rw [heq] at g1
    split
    next t2 heq2 =>
      have g2 := changeState_guardFree { fsm with transition := none, current := p.dst }
      rw [heq2] at g2
      exact guardFree_append g1 g2
    next v2 t2 heq2 =>
      have g2 := changeState_guardFree { fsm with transition := none, current := p.dst }
      rw [heq2] at g2
      split
      all_goals
        rename_i t3 heq3
        have g3 := afterEvent_guardFree { fsm with transition := none, current := p.dst } p.name
        rw [heq3] at g3
        exact guardFree_append (guardFree_append g1 g2) g3

theorem beforeEvent_guardFree_of_eq {g : FSM} {name : String} {r : Except Unit JVal}
    {t : List TraceEv} (heq : beforeEvent g name = (r, t)) : guardFree t := by
  have gf := beforeEvent_guardFree g name
  rw [heq] at gf
  exact gf

theorem afterEvent_guardFree_of_eq {g : FSM} {name : String} {r : Except Unit Unit}
    {t : List TraceEv} (heq : afterEvent g name = (r, t)) : guardFree t := by
  have gf := afterEvent_guardFree g name
  rw [heq] at gf
  exact gf

theorem leaveState_guardFree_of_eq {g : FSM} {src : String} {r : Except Unit JVal}
    {t : List TraceEv} (heq : leaveState g src = (r, t)) : guardFree t := by
  have gf := leaveState_guardFree g src
  rw [heq] at gf
  exact gf

theorem runTransition_guardFree_of_eq {g g2 : FSM} {p : Pending} {r : Except Unit JVal}
    {t : List TraceEv} (heq : runTransition g p = (g2, t, r)) : guardFree t := by
  have gf := runTransition_guardFree g p
  rw [heq] at gf
  exact gf

theorem fire_permitted_guardFree (fsm : FSM) (m : List (String × String)) (name : String)
    (args : List String) (hp : fsm.transition = none) (hm : lookupS fsm.map name = some m)
    (hperm : (hasKey m fsm.current || hasKey m "*") = true) :
    guardFree (fire fsm name args).2.1 := by
  simp only [fire, hm, hp, hperm, Option.isSome_none, Bool.false_eq_true, if_false,
    not_true, ite_false, ite_true, not_false_iff]
  split
  next tb heq =>
    exact beforeEvent_guardFree_of_eq heq
  next bv tb heq =>
    have gb := beforeEvent_guardFree_of_eq heq
    split
    · exact gb
    · split
      · split
        all_goals
          rename_i ta heq2
          exact guardFree_append gb (afterEvent_guardFree_of_eq heq2)
      · split
        next tl heq2 =>
          exact guardFree_append gb (leaveState_guardFree_of_eq heq2)
        next lv tl heq2 =>
          have gl := leaveState_guardFree_of_eq heq2
          split
          · exact guardFree_append gb gl
          · split
            · exact guardFree_append gb gl
            · dsimp only
              exact guardFree_append (guardFree_append gb gl) (runTransition_guardFree _ _)

/-- Claim C1 (amended): a dispatch attempt that reports `INVALID_TRANSITION`
or `PENDING_TRANSITION` leaves the machine - its current state and its
pending-transition slot - exactly as it was before the attempt.  (The
original claim extended this guarantee to `INVALID_CALLBACK`, which the code
does not honour: see the counterexample.) -/
theorem c1_guard_reports_preserve_state (fsm : FSM) (name : String) (args : List String)
    (h : TraceEv.report Err.INVALID_TRANSITION ∈ (fire fsm name args).2.1 ∨
         TraceEv.report Err.PENDING_TRANSITION ∈ (fire fsm name args).2.1) :
    (fire fsm name args).1 = fsm := by
  rcases hm : lookupS fsm.map name with _ | m
  · simp [fire, hm]
  · by_cases hp : fsm.transition.isSome = true
    · simp [fire, hm, hp]
    · have hpn : fsm.transition = none := Option.not_isSome_iff_eq_none.mp hp
      by_cases hc : (hasKey m fsm.current || hasKey m "*") = true
      · have g := fire_permitted_guardFree fsm m name args hpn hm hc
        rcases h with h | h
        · exact absurd rfl (g _ h).1
        · exact absurd rfl (g _ h).2
      · simp [fire, hm, hp, hc]

/-- Claim C1 counterexample: before the attempt the pending slot of
`fsmLeaveThrow` is empty; firing `go` makes the `onleavea` hook throw, and
the attempt reports `INVALID_CALLBACK` - yet after the attempt the pending
slot is populated, because the source installs `this.transition` before
running the leave hooks and never clears it on this path. -/
theorem c1_invalid_callback_corrupts :
    fsmLeaveThrow.transition = none ∧
    (fire fsmLeaveThrow "go" []).2.1 =
      [TraceEv.hookCall "onleavea", TraceEv.report Err.INVALID_CALLBACK] ∧
    (fire fsmLeaveThrow "go" []).1.transition =
      some { name := "go", src := "a", dst := "b", args := [] } :=
  ⟨rfl, rfl, rfl⟩

/-- Claim C1 witness: a firing that reports `INVALID_TRANSITION`
(`fsmNotPermitted` is in state `b`, from which `go` is not permitted) leaves
the machine unchanged. -/
theorem c1_guard_reports_preserve_state_witness :
    (fire fsmNotPermitted "go" []).1 = fsmNotPermitted :=
  c1_guard_reports_preserve_state fsmNotPermitted "go" [] (Or.inl (by decide))

/-- Claim C4: with a non-empty pending slot, firing any generated event
callable reports `PENDING_TRANSITION` through the error handler and does
nothing else: the machine is unchanged and the trace holds no hook
invocation and no other report - in particular the pending guard fires
before the permission check, so `INVALID_TRANSITION` is never reported. -/
theorem c4_pending_guard (fsm : FSM) (m : List (String × String)) (name : String)
    (args : List String) (p : Pending) (hp : fsm.transition = some p)
    (hm : lookupS fsm.map name = some m) :
    fire fsm name args =
      (fsm, [TraceEv.report Err.PENDING_TRANSITION], errResult fsm Err.PENDING_TRANSITION) := by
  simp [fire, hm, hp]

/-- Claim C4 witness: firing `go` on the suspended machine reports
`PENDING_TRANSITION` (the default handler throws) and changes nothing. -/
theorem c4_pending_guard_witness :
    fire fsmSuspended "go" [] =
      (fsmSuspended, [TraceEv.report Err.PENDING_TRANSITION], errResult fsmSuspended Err.PENDING_TRANSITION) :=
  c4_pending_guard fsmSuspended [("a", "b")] "go" []
    { name := "go", src := "a", dst := "b", args := [] } rfl rfl

/-- Claim C5: with an empty pending slot, firing a registered event reports
`INVALID_TRANSITION` and runs no hook (the whole attempt is the single
report, state untouched) exactly when the event's transition map has neither
an entry for the current state nor a wildcard entry. -/
theorem c5_invalid_transition_iff (fsm : FSM) (m : List (String × String)) (name : String)
    (args : List String) (hp : fsm.transition = none) (hm : lookupS fsm.map name = some m) :
    fire fsm name args =
        (fsm, [TraceEv.report Err.INVALID_TRANSITION], errResult fsm Err.INVALID_TRANSITION)
      ↔ (hasKey m fsm.current = false ∧ hasKey m "*" = false) := by
  constructor
  · intro h
    by_cases h1 : hasKey m fsm.current = false
    · by_cases h2 : hasKey m "*" = false
      · exact ⟨h1, h2⟩
      · exfalso
        have hperm : (hasKey m fsm.current || hasKey m "*") = true := by
          simp [Bool.not_eq_false] at h2
          simp [h2]
        have g := fire_permitted_guardFree fsm m name args hp hm hperm
        rw [h] at g
        exact (g (TraceEv.report Err.INVALID_TRANSITION) (by simp)).1 rfl
    · exfalso
      have hperm : (hasKey m fsm.current || hasKey m "*") = true := by
        simp [Bool.not_eq_false] at h1
        simp [h1]
      have g := fire_permitted_guardFree fsm m name args hp hm hperm
      rw [h] at g
      exact (g (TraceEv.report Err.INVALID_TRANSITION) (by simp)).1 rfl
  · intro h
    simp [fire, hm, hp, h.1, h.2]

/-- Claim C5 witness: in state `b`, where `go` has no entry and no wildcard
entry, firing `go` is exactly the `INVALID_TRANSITION` report. -/
theorem c5_invalid_transition_iff_witness :
    fire fsmNotPermitted "go" [] =
      (fsmNotPermitted, [TraceEv.report Err.INVALID_TRANSITION], errResult fsmNotPermitted Err.INVALID_TRANSITION) :=
  (c5_invalid_transition_iff fsmNotPermitted [("a", "b")] "go" [] rfl rfl).mpr ⟨rfl, rfl⟩

/-- Claim C10 (amended): with an empty pending slot, `can` and `cannot`
applied to an event name that was never registered throw (reading
`hasOwnProperty` of an undefined map entry); with a non-empty pending slot
the `&&` in `can` short-circuits, so they return `false` resp. `true`
without touching the map, even for unregistered names. -/
theorem c10_can_unregistered (fsm : FSM) (event : String) :
    (fsm.transition = none → lookupS fsm.map event = none →
       can fsm event = .error () ∧ cannot fsm event = .error ()) ∧
    (∀ p : Pending, fsm.transition = some p →
       can fsm event = .ok false ∧ cannot fsm event = .ok true) := by
  constructor
  · intro hp hm
    simp [can, cannot, hp, hm, Except.map]
  · intro p hp
    simp [can, cannot, hp, Except.map]

/-- Claim C10 counterexample: on the suspended machine, `can` with a name
that was never registered returns `false` instead of throwing, because
`!this.transition` short-circuits the `&&` before `map[event]` is read. -/
theorem c10_counterexample :
    lookupS fsmSuspended.map "nosuch" = none ∧ can fsmSuspended "nosuch" = .ok false :=
  ⟨rfl, rfl⟩

/-- Claim C10 witness: on an idle machine, `can` and `cannot` with an
unregistered event name throw. -/
theorem c10_can_unregistered_witness :
    can fsmNotPermitted "nosuch" = .error () ∧ cannot fsmNotPermitted "nosuch" = .error () :=
  (c10_can_unregistered fsmNotPermitted "nosuch").1 rfl rfl

/-- Claim C3, evaluated at the failing input: the event `reset` of
`cfgWildcardNoop` omits both `from` and `to`, so `add` binds the wildcard
key of the `reset` map to the literal `"*"`; fired from state `a` the resolved
destination is the literal wildcard symbol, and instead of the no-op
`NOTRANSITION` promised by the spec (and by the source's own comment
"allow no-op transition if 'to' is not specified") the firing returns
`SUCCEEDED` and moves `current` to the state `"*"`. -/
theorem c3_wildcard_noop_transitions_to_star :
    (create cfgWildcardNoop).1.current = "a" ∧
    (fire (create cfgWildcardNoop).1 "reset" []).2.2 = .ok (.vRes .SUCCEEDED) ∧
    (fire (create cfgWildcardNoop).1 "reset" []).1.current = "*" :=
  ⟨rfl, rfl, rfl⟩

/-- Claim C7 (amended): at the enter point the dispatcher invokes BOTH an
event-specific chain and a general chain, in that order: the specific chain
runs `enter<To>` when present and otherwise falls back to the plain
`<To>`-named hook; the general chain independently runs `enter-any-state`
(with its own `onstate` fallback).  In particular the plain `<To>`-named
hook is governed by the absence of `enter<To>`, not by the absence of
`enter-any-state`. -/
theorem c7_enter_resolution (fsm : FSM) (dst : String) :
    (∀ v1 v2, getHook fsm ("onenter" ++ dst) = some (.ret v1) →
       getHook fsm "onenterstate" = some (.ret v2) →
       (enterState fsm dst).2 =
         [TraceEv.hookCall ("onenter" ++ dst), TraceEv.hookCall "onenterstate"]) ∧
    (∀ v1 v2, getHook fsm ("onenter" ++ dst) = none →
       getHook fsm ("on" ++ dst) = some (.ret v1) →
       getHook fsm "onenterstate" = some (.ret v2) →
       (enterState fsm dst).2 =
         [TraceEv.hookCall ("on" ++ dst), TraceEv.hookCall "onenterstate"]) := by
  constructor
  · intro v1 v2 h1 h2
    simp [enterState, enterThisState, enterAnyState, callHook, resolveCB, h1, h2]
  · intro v1 v2 h0 h1 h2
    simp [enterState, enterThisState, enterAnyState, callHook, resolveCB, h0, h1, h2]

/-- Claim C7 counterexample: `fsmEnterBoth` has both `onenterb` (the specific
hook, present) and `onenterstate` (the general hook); firing `go : a -> b`
invokes both, so the general hook is not reserved for the case where the
specific one is absent. -/
theorem c7_counterexample :
    getHook fsmEnterBoth "onenterb" = some (.ret .vOther) ∧
    TraceEv.hookCall "onenterb" ∈ (fire fsmEnterBoth "go" []).2.1 ∧
    TraceEv.hookCall "onenterstate" ∈ (fire fsmEnterBoth "go" []).2.1 := by
  refine ⟨rfl, ?_, ?_⟩ <;> decide

/-- Claim C7 witness: the two resolution scenarios of the amended claim,
evaluated on concrete machines. -/
theorem c7_enter_resolution_witness :
    (enterState fsmEnterBoth "b").2 =
      [TraceEv.hookCall ("onenter" ++ "b"), TraceEv.hookCall "onenterstate"] ∧
    (enterState fsmEnterPlain "b").2 =
      [TraceEv.hookCall ("on" ++ "b"), TraceEv.hookCall "onenterstate"] :=
  ⟨(c7_enter_resolution fsmEnterBoth "b").1 .vOther .vOther rfl rfl,
   (c7_enter_resolution fsmEnterPlain "b").2 .vOther .vOther rfl rfl rfl⟩

/-- Claim C6: in a permitted firing, if the event-specific before hook
returns `false`, or it does not (absent, or returning some non-`false`
value) and the general before-any-event hook returns `false`, then the
firing returns `CANCELLED`, the machine is unchanged, and the trace holds
nothing but before-hook invocations - no leave, enter or change hook runs. -/
theorem c6_before_false_cancels (fsm : FSM) (m : List (String × String)) (name : String)
    (args : List String) (hp : fsm.transition = none) (hm : lookupS fsm.map name = some m)
    (hperm : (hasKey m fsm.current || hasKey m "*") = true)
    (hb : getHook fsm ("onbefore" ++ name) = some (.ret .vFalse) ∨
          ((getHook fsm ("onbefore" ++ name) = none ∨
            ∃ v, getHook fsm ("onbefore" ++ name) = some (.ret v) ∧ v ≠ JVal.vFalse) ∧
           getHook fsm "onbeforeevent" = some (.ret .vFalse))) :
    (fire fsm name args).1 = fsm ∧
    (fire fsm name args).2.2 = .ok (.vRes .CANCELLED) ∧
    ∀ e ∈ (fire fsm name args).2.1,
      e = TraceEv.hookCall ("onbefore" ++ name) ∨ e = TraceEv.hookCall "onbeforeevent" := by
  have hbe : ∃ t, beforeEvent fsm name = (.ok .vFalse, t) ∧
      ∀ e ∈ t, e = TraceEv.hookCall ("onbefore" ++ name) ∨ e = TraceEv.hookCall "onbeforeevent" := by
    rcases hb with hb | ⟨hs, hg⟩
    · refine ⟨[TraceEv.hookCall ("onbefore" ++ name)], ?_, by simp⟩
      simp [beforeEvent, beforeThisEvent, callHook, resolveCB, hb]
    · rcases hs with hs | ⟨v, hs, hv⟩
      · refine ⟨[TraceEv.hookCall "onbeforeevent"], ?_, by simp⟩
        simp [beforeEvent, beforeThisEvent, beforeAnyEvent, callHook, resolveCB, hs, hg]
      · refine ⟨[TraceEv.hookCall ("onbefore" ++ name), TraceEv.hookCall "onbeforeevent"], ?_, by simp⟩
        simp [beforeEvent, beforeThisEvent, beforeAnyEvent, callHook, resolveCB, hs, hg, hv]
  obtain ⟨t, hbe, hmem⟩ := hbe
  have hfire : fire fsm name args = (fsm, t, .ok (.vRes .CANCELLED)) := by
    simp [fire, hm, hp, hperm, hbe]
  rw [hfire]
  exact ⟨rfl, rfl, hmem⟩

/-- Claim C6 witness: `fsmBeforeFalse` has `onbeforego` returning `false`;
firing `go` is cancelled with the machine unchanged. -/
theorem c6_before_false_cancels_witness :
    (fire fsmBeforeFalse "go" []).1 = fsmBeforeFalse ∧
    (fire fsmBeforeFalse "go" []).2.2 = .ok (.vRes .CANCELLED) :=
  ⟨(c6_before_false_cancels fsmBeforeFalse [("a", "b")] "go" [] rfl rfl rfl (Or.inl rfl)).1,
   (c6_before_false_cancels fsmBeforeFalse [("a", "b")] "go" [] rfl rfl rfl (Or.inl rfl)).2.1⟩

/-- Claim C2: a permitted firing whose resolved leave phase returns the
async marker suspends: it returns `PENDING` with `current` still the source
state and the pending slot holding the transition data.  Calling the stored
finalize then commits `current = to`, runs the enter, change and after hook
phases once each (the trace is exactly the three phase traces in order),
clears the slot and returns `SUCCEEDED`; calling the stored cancel instead
leaves `current` unchanged, runs the after hooks and clears the slot; and
once the slot is cleared by either completion, any further finalize or
cancel call is rejected (calling/reading `null` throws) with an empty trace,
re-running no hook. -/
theorem c2_async_protocol (fsm : FSM) (m : List (String × String)) (name dst : String)
    (args : List String)
    (hp : fsm.transition = none)
    (hm : lookupS fsm.map name = some m)
    (hdst : (((lookupS m fsm.current).or (lookupS m "*")).getD fsm.current) = dst)
    (hne : fsm.current ≠ dst)
    (hperm : (hasKey m fsm.current || hasKey m "*") = true)
    (vb : JVal) (tb : List TraceEv)
    (hb : beforeEvent fsm name = (.ok vb, tb)) (hvb : vb ≠ JVal.vFalse)
    (tl : List TraceEv)
    (hl : leaveState
        { fsm with transition := some { name := name, src := fsm.current, dst := dst, args := args } }
        fsm.current = (.ok .vAsync, tl))
    (te : List TraceEv)
    (he : enterState { fsm with current := dst, transition := none } dst = (.ok (), te))
    (vc : JVal) (tc : List TraceEv)
    (hc : changeState { fsm with current := dst, transition := none } = (.ok vc, tc))
    (ta : List TraceEv)
    (ha : afterEvent { fsm with current := dst, transition := none } name = (.ok (), ta))
    (ta2 : List TraceEv)
    (ha2 : afterEvent { fsm with transition := none } name = (.ok (), ta2)) :
    fire fsm name args =
      ({ fsm with transition := some { name := name, src := fsm.current, dst := dst, args := args } },
       tb ++ tl, .ok (.vRes .PENDING)) ∧
    finalizePending
        { fsm with transition := some { name := name, src := fsm.current, dst := dst, args := args } } =
      ({ fsm with current := dst, transition := none }, te ++ tc ++ ta, .ok (.vRes .SUCCEEDED)) ∧
    cancelPending
        { fsm with transition := some { name := name, src := fsm.current, dst := dst, args := args } } =
      ({ fsm with transition := none }, ta2, .ok .vUndef) ∧
    finalizePending { fsm with current := dst, transition := none } =
      ({ fsm with current := dst, transition := none }, [], .error ()) ∧
    cancelPending { fsm with current := dst, transition := none } =
      ({ fsm with current := dst, transition := none }, [], .error ()) ∧
    finalizePending { fsm with transition := none } =
      ({ fsm with transition := none }, [], .error ()) ∧
    cancelPending { fsm with transition := none } =
      ({ fsm with transition := none }, [], .error ()) := by
  subst hdst
  refine ⟨?_, ?_, ?_, rfl, rfl, rfl, rfl⟩
  · simp [fire, hm, hp, hperm, hb, hvb, hne, hl]
  · simp [finalizePending, runTransition, he, hc, ha]
  · simp [cancelPending, ha2]

/-- Claim C2 witness: the async scenario on `fsmAsync` (`go : a -> b`,
`onleavea` returns the marker): firing suspends with `PENDING`, and
finalizing commits to `b`, running the enter and after hooks. -/
theorem c2_async_protocol_witness :
    fire fsmAsync "go" [] =
      ({ fsmAsync with transition := some { name := "go", src := "a", dst := "b", args := [] } },
       [TraceEv.hookCall "onleavea"], .ok (.vRes .PENDING)) ∧
    finalizePending
        { fsmAsync with transition := some { name := "go", src := "a", dst := "b", args := [] } } =
      ({ fsmAsync with current := "b", transition := none },
       [TraceEv.hookCall "onenterb", TraceEv.hookCall "onaftergo"], .ok (.vRes .SUCCEEDED)) := by
  have h := c2_async_protocol fsmAsync [("a", "b")] "go" "b" [] rfl rfl rfl (by decide) rfl
    .vUndef [] rfl (by decide) [TraceEv.hookCall "onleavea"] rfl
    [TraceEv.hookCall "onenterb"] rfl .vUndef [] rfl
    [TraceEv.hookCall "onaftergo"] rfl [TraceEv.hookCall "onaftergo"] rfl
  exact ⟨h.1, h.2.1⟩

theorem addFroms_map_lookup_ne (e : EventSpec) (froms : List String)
    (acc : List (String × String) × List (String × List String)) (q : String)
    (hq : q ∉ froms) : lookupS (addFroms e froms acc).1 q = lookupS acc.1 q := by
  induction froms generalizing acc with
  | nil => rfl
  | cons f rest ih =>
    have hqf : f ≠ q := fun h => hq (by simp [h])
    have hqr : q ∉ rest := fun h => hq (List.mem_cons_of_mem _ h)
    simp only [addFroms]
    rw [ih _ hqr]
    exact lookupS_insertS_ne _ _ _ _ hqf

theorem addFroms_tt_mem (e : EventSpec) (froms : List String)
    (acc : List (String × String) × List (String × List String)) (s x : String) :
    x ∈ (lookupS (addFroms e froms acc).2 s).getD [] ↔
      x ∈ (lookupS acc.2 s).getD [] ∨ (x = e.name ∧ s ∈ froms) := by
  induction froms generalizing acc with
  | nil => simp [addFroms]
  | cons f rest ih =>
    simp only [addFroms]
    rw [ih]
    by_cases hsf : f = s
    · subst hsf
      rw [lookupS_insertS_self]
      simp only [Option.getD_some, List.mem_append, List.mem_singleton, List.mem_cons]
      tauto
    · rw [lookupS_insertS_ne _ _ _ _ hsf]
      simp only [List.mem_cons]
      constructor
      · rintro (h | ⟨h1, h2⟩)
        · exact Or.inl h
        · exact Or.inr ⟨h1, Or.inr h2⟩
      · rintro (h | ⟨h1, h2 | h2⟩)
        · exact Or.inl h
        · exact absurd h2.symm hsf
        · exact Or.inr ⟨h1, h2⟩

theorem addAll_map_preserve (ev st : String) (specs : List EventSpec)
    (acc : List (String × List (String × String)) × List (String × List String))
    (mE : List (String × String))
    (hm : lookupS acc.1 ev = some mE) (hn : lookupS mE "none" = some st)
    (hno : ∀ e ∈ specs, e.name = ev → "none" ∉ e.srcs.getD ["*"]) :
    ∃ mE2, lookupS (addAll specs acc).1 ev = some mE2 ∧ lookupS mE2 "none" = some st := by
  induction specs generalizing acc mE with
  | nil => exact ⟨mE, hm, hn⟩
  | cons e rest ih =>
    simp only [addAll]
    by_cases hne : e.name = ev
    · have hfr : "none" ∉ e.srcs.getD ["*"] := hno e (List.mem_cons_self _ _) hne
      refine ih _ ((addFroms e (e.srcs.getD ["*"]) ((lookupS acc.1 e.name).getD [], acc.2)).1) ?_ ?_
        (fun e2 he2 => hno e2 (List.mem_cons_of_mem _ he2))
      · simp only [addEvent]
        rw [← hne]
        exact lookupS_insertS_self _ _ _
      · rw [addFroms_map_lookup_ne _ _ _ _ hfr]
        simp only [hne, hm, Option.getD_some]
        exact hn
    · refine ih _ mE ?_ hn (fun e2 he2 => hno e2 (List.mem_cons_of_mem _ he2))
      simp only [addEvent]
      rw [lookupS_insertS_ne _ _ _ _ hne]
      exact hm

theorem addAll_tt_mem (s x : String) (specs : List EventSpec)
    (acc : List (String × List (String × String)) × List (String × List String)) :
    x ∈ (lookupS (addAll specs acc).2 s).getD [] ↔
      x ∈ (lookupS acc.2 s).getD [] ∨ ∃ e ∈ specs, e.name = x ∧ s ∈ e.srcs.getD ["*"] := by
  induction specs generalizing acc with
  | nil => simp [addAll]
  | cons e rest ih =>
    simp only [addAll]
    rw [ih]
    simp only [addEvent]
    rw [addFroms_tt_mem]
    constructor
    · rintro ((h | ⟨h1, h2⟩) | ⟨e2, he2, h1, h2⟩)
      · exact Or.inl h
      · exact Or.inr ⟨e, List.mem_cons_self _ _, h1.symm, h2⟩
      · exact Or.inr ⟨e2, List.mem_cons_of_mem _ he2, h1, h2⟩
    · rintro (h | ⟨e2, he2, h1, h2⟩)
      · exact Or.inl (Or.inl h)
      · rcases List.mem_cons.mp he2 with he2 | he2
        · subst he2
          exact Or.inl (Or.inr ⟨h1.symm, h2⟩)
        · exact Or.inr ⟨e2, he2, h1, h2⟩

theorem resolveCB_mem (fsm : FSM) (ks : List String) (k : String) (cb : CB)
    (h : resolveCB fsm ks = some (k, cb)) : (k, cb) ∈ fsm.hooks := by
  induction ks with
  | nil => simp [resolveCB] at h
  | cons k0 rest ih =>
    simp only [resolveCB] at h
    rcases h0 : getHook fsm k0 with _ | cb0
    · rw [h0] at h
      exact ih h
    · rw [h0] at h
      simp at h
      rw [← h.1, ← h.2]
      exact lookupS_mem _ _ _ h0

theorem callHook_good (fsm : FSM) (ks : List String) (hg : goodHooks fsm) :
    ∃ v t, callHook fsm ks = (.ok v, t) ∧ v ≠ JVal.vFalse ∧ v ≠ JVal.vAsync := by
  unfold callHook
  rcases h : resolveCB fsm ks with _ | ⟨k, cb⟩
  · exact ⟨.vUndef, [], rfl, by simp, by simp⟩
  · obtain ⟨v, hcb, hv1, hv2⟩ := hg k cb (resolveCB_mem fsm ks k cb h)
    subst hcb
    exact ⟨v, [.hookCall k], rfl, hv1, hv2⟩

theorem beforeEvent_good (fsm : FSM) (name : String) (hg : goodHooks fsm) :
    ∃ t, beforeEvent fsm name = (.ok .vUndef, t) := by
  obtain ⟨v1, t1, h1, hv1, _⟩ := callHook_good fsm ["onbefore" ++ name] hg
  obtain ⟨v2, t2, h2, hv2, _⟩ := callHook_good fsm ["onbeforeevent"] hg
  refine ⟨t1 ++ t2, ?_⟩
  simp [beforeEvent, beforeThisEvent, beforeAnyEvent, h1, h2, hv1, hv2]

theorem afterEvent_good (fsm : FSM) (name : String) (hg : goodHooks fsm) :
    ∃ t, afterEvent fsm name = (.ok (), t) := by
  obtain ⟨v1, t1, h1, _, _⟩ := callHook_good fsm ["onafter" ++ name, "on" ++ name] hg
  obtain ⟨v2, t2, h2, _, _⟩ := callHook_good fsm ["onafterevent", "onevent"] hg
  refine ⟨t1 ++ t2, ?_⟩
  simp [afterEvent, afterThisEvent, afterAnyEvent, h1, h2]

theorem leaveState_good (fsm : FSM) (src : String) (hg : goodHooks fsm) :
    ∃ t, leaveState fsm src = (.ok .vUndef, t) := by
  obtain ⟨v1, t1, h1, hv1, hw1⟩ := callHook_good fsm ["onleave" ++ src] hg
  obtain ⟨v2, t2, h2, hv2, hw2⟩ := callHook_good fsm ["onleavestate"] hg
  refine ⟨t1 ++ t2, ?_⟩
  simp [leaveState, leaveThisState, leaveAnyState, h1, h2, hv1, hv2, hw1, hw2]

theorem enterState_good (fsm : FSM) (dst : String) (hg : goodHooks fsm) :
    ∃ t, enterState fsm dst = (.ok (), t) := by
  obtain ⟨v1, t1, h1, _, _⟩ := callHook_good fsm ["onenter" ++ dst, "on" ++ dst] hg
  obtain ⟨v2, t2, h2, _, _⟩ := callHook_good fsm ["onenterstate", "onstate"] hg
  refine ⟨t1 ++ t2, ?_⟩
  simp [enterState, enterThisState, enterAnyState, h1, h2]

theorem goodHooks_update (fsm : FSM) (c : String) (tr : Option Pending)
    (hg : goodHooks fsm) : goodHooks { fsm with current := c, transition := tr } :=
  fun k cb h => hg k cb h

theorem runTransition_good (fsm : FSM) (p : Pending) (hg : goodHooks fsm) :
    ∃ t, runTransition fsm p =
      ({ fsm with current := p.dst, transition := none }, t, .ok (.vRes .SUCCEEDED)) := by
  obtain ⟨t1, h1⟩ := enterState_good { fsm with current := p.dst, transition := none } p.dst
    (goodHooks_update fsm p.dst none hg)
  obtain ⟨v2, t2, h2, _, _⟩ := callHook_good { fsm with current := p.dst, transition := none }
    ["onchangestate"] (goodHooks_update fsm p.dst none hg)
  obtain ⟨t3, h3⟩ := afterEvent_good { fsm with current := p.dst, transition := none } p.name
    (goodHooks_update fsm p.dst none hg)
  refine ⟨t1 ++ t2 ++ t3, ?_⟩
  simp [runTransition, changeState, h1, h2, h3]

/-- With well-behaved hooks, an idle machine firing a registered event whose
map has an explicit entry for the current state ends the firing in that
entry's destination with an empty pending slot (via the no-op shortcut when
the destination equals the source, via an immediate transition otherwise). -/
theorem fire_good_current (fsm : FSM) (m : List (String × String)) (name : String)
    (args : List String) (st : String) (hg : goodHooks fsm)
    (hp : fsm.transition = none) (hm : lookupS fsm.map name = some m)
    (hst : lookupS m fsm.current = some st) :
    (fire fsm name args).1.current = st ∧ (fire fsm name args).1.transition = none := by
  have hperm : (hasKey m fsm.current || hasKey m "*") = true := by
    simp [hasKey, hst]
  obtain ⟨tb, hbe⟩ := beforeEvent_good fsm name hg
  by_cases heq : fsm.current = st
  · obtain ⟨ta, ha⟩ := afterEvent_good fsm name hg
    simp [fire, hm, hp, hperm, hst, hbe, ha, ← heq]
  · have hgood1 : goodHooks { fsm with
        transition := some { name := name, src := fsm.current, dst := st, args := args } } :=
      fun k cb h => hg k cb h
    obtain ⟨tl, hl⟩ := leaveState_good { fsm with
        transition := some { name := name, src := fsm.current, dst := st, args := args } }
      fsm.current hgood1
    obtain ⟨tt, htt⟩ := runTransition_good { fsm with
        transition := some { name := name, src := fsm.current, dst := st, args := args } }
      { name := name, src := fsm.current, dst := st, args := args } hgood1
    simp [fire, hm, hp, hperm, hst, hbe, heq, hl, htt]

theorem runTransition_staticEq (fsm : FSM) (p : Pending) :
    staticEq (runTransition fsm p).1 fsm := by
  unfold runTransition
  dsimp only
  split
  next => exact ⟨rfl, rfl, rfl, rfl⟩
  next =>
    split
    next => exact ⟨rfl, rfl, rfl, rfl⟩
    next =>
      split <;> exact ⟨rfl, rfl, rfl, rfl⟩

theorem fire_staticEq (fsm : FSM) (name : String) (args : List String) :
    staticEq (fire fsm name args).1 fsm := by
  unfold fire
  split
  next => exact ⟨rfl, rfl, rfl, rfl⟩
  next m hm =>
    dsimp only
    split
    · exact ⟨rfl, rfl, rfl, rfl⟩
    · split
      · exact ⟨rfl, rfl, rfl, rfl⟩
      · split
        next => exact ⟨rfl, rfl, rfl, rfl⟩
        next bv tb hbe =>
          split
          · exact ⟨rfl, rfl, rfl, rfl⟩
          · split
            · split <;> exact ⟨rfl, rfl, rfl, rfl⟩
            · split
              next => exact ⟨rfl, rfl, rfl, rfl⟩
              next lv tl hl =>
                split
                · exact ⟨rfl, rfl, rfl, rfl⟩
                · split
                  · exact ⟨rfl, rfl, rfl, rfl⟩
                  · exact runTransition_staticEq _ _

theorem create_staticParts (cfg : Config) :
    (create cfg).1.map = (buildTables (allSpecs cfg)).1 ∧
    (create cfg).1.transitionsTable = (buildTables (allSpecs cfg)).2 ∧
    (create cfg).1.hooks = cfg.callbacks ∧
    (create cfg).1.errh = cfg.errh := by
  unfold create
  dsimp only
  split
  next => exact ⟨rfl, rfl, rfl, rfl⟩
  next i hin =>
    split
    · exact ⟨rfl, rfl, rfl, rfl⟩
    · split
      next => exact ⟨rfl, rfl, rfl, rfl⟩
      next => exact ⟨rfl, rfl, rfl, rfl⟩
      next => exact fire_staticEq _ _ _

/-- Claim C9 counterexample: on the machine built from `cfgWildcardIdx`
(current state `a`), the wildcard-registered event `reset` is permitted by
`can`, yet `transitions()` does not contain it (wildcard registrations are
indexed under the literal `"*"` key, not under every state); moreover the
twice-registered `go` appears twice, so the returned collection is not
duplicate-free. -/
theorem c9_counterexample :
    can (create cfgWildcardIdx).1 "reset" = .ok true ∧
    "reset" ∉ ((transitionsOf (create cfgWildcardIdx).1).getD []) ∧
    ((transitionsOf (create cfgWildcardIdx).1).getD []).count "go" = 2 := by
  refine ⟨rfl, ?_, ?_⟩ <;> decide

/-- Claim C9 (amended): for a machine built from a configuration, considered
in any current state `s`, an event name appears in `transitions()` exactly
when some event specification (the synthesized initial one included) carries
that name and explicitly lists `s` among its source states - one occurrence
is pushed per such registration, so duplicates are possible, and events
registered only through the wildcard never appear even though `can` permits
them (unless `s` is the literal wildcard symbol). -/
theorem c9_transitions_characterization (cfg : Config) (s x : String) :
    x ∈ ((transitionsOf { (create cfg).1 with current := s }).getD []) ↔
      ∃ e ∈ allSpecs cfg, e.name = x ∧ s ∈ e.srcs.getD ["*"] := by
  have htt := (create_staticParts cfg).2.1
  show x ∈ ((lookupS (create cfg).1.transitionsTable s).getD []) ↔ _
  rw [htt]
  unfold buildTables
  rw [addAll_tt_mem]
  simp [lookupS]

/-- Claim C8 counterexample: `cfgInitOverride` has a non-deferred initial
descriptor for state `init` and supplies no callbacks at all, yet after
construction `current` is `other`, because the events list also registers
the `startup` event from `"none"` and the later registration overwrites the
synthesized initial mapping. -/
theorem c8_counterexample :
    cfgInitOverride.callbacks = [] ∧
    (create cfgInitOverride).1.current = "other" ∧
    (create cfgInitOverride).1.current ≠ "init" := by
  refine ⟨rfl, rfl, ?_⟩
  decide

/-- Claim C8 (amended): with a non-deferred initial descriptor, no callback
that cancels, suspends or throws, no callback sharing the initial event's
name (which would shadow the generated callable), and no event specification
reusing the initial event's name with `"none"` among its sources (which
would overwrite the synthesized mapping), construction ends with `current`
equal to the configured initial state, having started from the sentinel
`"none"` and fired the synthesized initial event (default name
`"startup"`). -/
theorem c8_construction_initial (cfg : Config) (i : InitCfg)
    (hin : cfg.initial = some i) (hdef : i.defer = false)
    (hcb : ∀ k cb, (k, cb) ∈ cfg.callbacks →
      ∃ v, cb = CB.ret v ∧ v ≠ JVal.vFalse ∧ v ≠ JVal.vAsync)
    (hsh : lookupS cfg.callbacks (i.event.getD "startup") = none)
    (hov : ∀ e ∈ cfg.events, e.name = i.event.getD "startup" → "none" ∉ e.srcs.getD ["*"]) :
    (create cfg).1.current = i.state := by
  have hspec : allSpecs cfg =
      { name := i.event.getD "startup", srcs := some ["none"], dst := some i.state } :: cfg.events := by
    simp [allSpecs, hin]
  have hmap : ∃ mE2,
      lookupS (buildTables (allSpecs cfg)).1 (i.event.getD "startup") = some mE2 ∧
      lookupS mE2 "none" = some i.state := by
    rw [hspec]
    unfold buildTables
    simp only [addAll]
    refine addAll_map_preserve _ _ cfg.events _ [("none", i.state)] ?_ ?_ hov
    · simp [addEvent, addFroms, insertS, lookupS]
    · simp [lookupS]
  obtain ⟨mE2, hm2, hn2⟩ := hmap
  have hcreate : create cfg = fire
      { map := (buildTables (allSpecs cfg)).1,
        transitionsTable := (buildTables (allSpecs cfg)).2,
        hooks := cfg.callbacks, errh := cfg.errh, current := "none", transition := none }
      (i.event.getD "startup") [] := by
    simp [create, hin, hdef, hsh]
  rw [hcreate]
  exact (fire_good_current
    { map := (buildTables (allSpecs cfg)).1,
      transitionsTable := (buildTables (allSpecs cfg)).2,
      hooks := cfg.callbacks, errh := cfg.errh, current := "none", transition := none }
    mE2 (i.event.getD "startup") [] i.state hcb rfl hm2 hn2).1

/-- Claim C8 witness: constructing from `cfgPlain` (initial `green`, no
callbacks) ends in state `green`. -/
theorem c8_construction_initial_witness :
    (create cfgPlain).1.current = "green" :=
  c8_construction_initial cfgPlain { state := "green", event := none, defer := false } rfl rfl
    (by intro k cb h; simp [cfgPlain] at h) rfl (by decide)

end StateMachine
